import Mathlib

/-!
Verification of `p7z2tar.py`.

This file gives a shallow embedding of the program's core components and
proves (or refutes) the specified properties about them:

* `ArchiveEntryBlocks` — the chunk-bounded reader adapting an iterator of
  byte chunks to a bounded `read(size)` interface (`p7z2tar.py`, lines 28-75);
* `tarinfo_from_libarchive_entry` — the entry metadata mapper (lines 11-25);
* `extract_to_stdout` — the pipeline orchestrator's filter / progress /
  streaming logic (lines 131-179).

Byte strings are modelled as `List Nat`; Python's iterator of blocks is
modelled as the list of its not-yet-consumed items.  Python slice
expressions `b[i:j]` (with possibly negative indices, clamped to the
string) are modelled by `pySlice` / `pySliceFrom` below.
-/

set_option autoImplicit false

/-- A byte string (Python `bytes`), modelled as a list of byte values. -/
abbrev ByteStr := List Nat

/-- Clamp a (possibly negative) Python slice index to an actual position in a
string of length `n`: a negative index counts from the end, a nonnegative one
from the start, both clamped into `[0, n]`. -/
def pyBound (n : Nat) (i : Int) : Nat :=
  if i < 0 then n - (-i).toNat else min i.toNat n

/-- Python slice `b[i:j]`. -/
def pySlice {α : Type} (b : List α) (i j : Int) : List α :=
  (b.take (pyBound b.length j)).drop (pyBound b.length i)

/-- Python slice `b[i:]` (end omitted). -/
def pySliceFrom {α : Type} (b : List α) (i : Int) : List α :=
  b.drop (pyBound b.length i)

/-- State of the chunk-bounded reader `ArchiveEntryBlocks`
(`p7z2tar.py`, lines 28-40):

* `blocks` — the not-yet-consumed items of the underlying block iterator;
* `curr_block` — the most recently pulled block (`None` before the first
  pull);
* `cursor` — when `some k`, the last `k` bytes of `curr_block` have not been
  returned yet; `none` means no partially-consumed block is held.  The Python
  code stores an `int` here but only ever stores strictly positive values
  (nonpositive transient values are replaced by `None` at line 62). -/
structure ArchiveEntryBlocks where
  blocks : List ByteStr
  curr_block : Option ByteStr
  cursor : Option Nat
deriving Repr, DecidableEq

/-- Fresh reader over a block iterator (`ArchiveEntryBlocks.__init__`,
lines 33-40). -/
def ArchiveEntryBlocks.init (blocks : List ByteStr) : ArchiveEntryBlocks :=
  { blocks := blocks, curr_block := none, cursor := none }

/-- Model of `ArchiveEntryBlocks._read_all` (lines 74-75):
`b''.join(self.blocks)`.
Joining the iterator exhausts it; `curr_block` and `cursor` are untouched. -/
def ArchiveEntryBlocks._read_all (s : ArchiveEntryBlocks) :
    ByteStr × ArchiveEntryBlocks :=
  (s.blocks.flatten, { s with blocks := [] })

/-- The `while retrieved_size < size` loop of `ArchiveEntryBlocks.read`
(lines 49-72).  The Python code mutates `self` and appends slices to `cbuf`;
here the loop returns the list of appended slices together with the final
state.  The transient assignment `self.cursor = retrieved_size + prev_cursor
- size` followed by the test `if self.cursor <= 0` is rendered as the test
`retrieved + prev_cursor ≤ size` (the transient value is nonpositive exactly
when this holds), with the positive cursor value `retrieved + prev_cursor -
size` stored otherwise. -/
def ArchiveEntryBlocks.readLoop (size : Nat) (retrieved : Nat)
    (s : ArchiveEntryBlocks) : List ByteStr × ArchiveEntryBlocks :=
  if retrieved < size then
    match hcur : s.cursor with
    | none =>
      match hblk : s.blocks with
      | [] => ([], s)  -- StopIteration: break (lines 53-56)
      | b :: rest =>
        -- self.curr_block = next(self.blocks); prev_cursor = len(curr_block)
        let s₁ : ArchiveEntryBlocks :=
          { s with blocks := rest, curr_block := some b }
        let prev_cursor := b.length
        if retrieved + prev_cursor ≤ size then
          -- cursor <= 0: cursor = None; cbuf.append(curr_block[-prev_cursor:])
          let piece := pySliceFrom b (-(prev_cursor : Int))
          let out := ArchiveEntryBlocks.readLoop size (retrieved + prev_cursor)
            { s₁ with cursor := none }
          (piece :: out.1, out.2)
        else
          -- cursor > 0: cbuf.append(curr_block[-prev_cursor:-cursor])
          let c := retrieved + prev_cursor - size
          let piece := pySlice b (-(prev_cursor : Int)) (-(c : Int))
          let out := ArchiveEntryBlocks.readLoop size
            (retrieved + (prev_cursor - c)) { s₁ with cursor := some c }
          (piece :: out.1, out.2)
    | some k =>
      -- prev_cursor = self.cursor (line 59); curr_block is already held
      let b := s.curr_block.getD []
      let prev_cursor := k
      if retrieved + prev_cursor ≤ size then
        let piece := pySliceFrom b (-(prev_cursor : Int))
        let out := ArchiveEntryBlocks.readLoop size (retrieved + prev_cursor)
          { s with cursor := none }
        (piece :: out.1, out.2)
      else
        let c := retrieved + prev_cursor - size
        let piece := pySlice b (-(prev_cursor : Int)) (-(c : Int))
        let out := ArchiveEntryBlocks.readLoop size
          (retrieved + (prev_cursor - c)) { s with cursor := some c }
        (piece :: out.1, out.2)
  else ([], s)
termination_by 2 * s.blocks.length + (if s.cursor.isSome then 1 else 0)
  + (size - retrieved)
decreasing_by
  all_goals simp_all
  all_goals omega

/-- Model of `ArchiveEntryBlocks.read` (lines 42-72).  `size = none` models the Python
call `read(None)`; `some v` models `read(v)`.  Returns the bytes together
with the updated reader state. -/
def ArchiveEntryBlocks.read (size : Option Int) (s : ArchiveEntryBlocks) :
    ByteStr × ArchiveEntryBlocks :=
  let sz : Int := match size with
    | none => -1  -- lines 43-44: if size is None: size = -1
    | some v => v
  if sz < 0 then s._read_all  -- lines 45-46
  else if sz = 0 then ([], s)  -- lines 47-48
  else
    let out := ArchiveEntryBlocks.readLoop sz.toNat 0 s
    (out.1.flatten, out.2)  -- line 72: b''.join(cbuf)

/-- Run a sequence of `read` calls, collecting each call's result. -/
def runReads (sizes : List (Option Int)) (s : ArchiveEntryBlocks) :
    List ByteStr × ArchiveEntryBlocks :=
  match sizes with
  | [] => ([], s)
  | sz :: rest =>
    let r := ArchiveEntryBlocks.read sz s
    let rs := runReads rest r.2
    (r.1 :: rs.1, rs.2)

/-- The unreturned tail of the held block: the last `k` bytes of
`curr_block` when `cursor = some k`, nothing when the cursor is empty. -/
def cursorTail (s : ArchiveEntryBlocks) : ByteStr :=
  match s.cursor with
  | none => []
  | some k =>
    let b := s.curr_block.getD []
    b.drop (b.length - k)

/-- All bytes the reader has not yet returned: the held tail followed by the
blocks not yet pulled from the iterator. -/
def remaining (s : ArchiveEntryBlocks) : ByteStr :=
  cursorTail s ++ s.blocks.flatten

/-- The reader's cursor invariant: a held cursor is strictly positive and at
most the length of the held block (which in particular must be present). -/
def CursorInv (s : ArchiveEntryBlocks) : Prop :=
  ∀ k, s.cursor = some k → 1 ≤ k ∧ k ≤ (s.curr_block.getD []).length

/-- The claimed cursor bound, as a decidable check: the cursor is empty, or
its offset is at most the length of the held block. -/
def cursorInBounds (s : ArchiveEntryBlocks) : Bool :=
  match s.cursor with
  | none => true
  | some k => decide (k ≤ (s.curr_block.getD []).length)

/-- The reader states reachable from a fresh reader through `read` calls. -/
inductive Reachable : ArchiveEntryBlocks → Prop
  | init (chunks : List ByteStr) : Reachable (ArchiveEntryBlocks.init chunks)
  | step (sz : Option Int) {s : ArchiveEntryBlocks} :
      Reachable s → Reachable (ArchiveEntryBlocks.read sz s).2

/-! ### The metadata mapper and the pipeline orchestrator -/

/-- Python truthiness of an optional numeric attribute (as in
`if entry.mtime:`): `None` and `0` are falsy. -/
def pyTruthyNum (v : Option Nat) : Bool :=
  match v with
  | none => false
  | some n => n != 0

/-- A libarchive source entry, with the attributes the program consumes:
`str(entry)`, `entry.size`, `entry.mtime`, `entry.mode`,
`iter(entry.get_blocks())`. -/
structure Entry where
  name : String
  size : Nat
  mtime : Option Nat
  mode : Option Nat
  blocks : List ByteStr
deriving Repr, DecidableEq

/-- The fields of `tarfile.TarInfo` that the program touches. -/
structure TarInfo where
  name : String
  size : Nat
  mtime : Nat
  mode : Nat
deriving Repr, DecidableEq

/-- CPython's `tarfile.TarInfo(name)` initialises `size = 0`, `mtime = 0` and
`mode = 0o644`. -/
def TarInfo.mkDefault (name : String) : TarInfo :=
  { name := name, size := 0, mtime := 0, mode := 0o644 }

/-- Model of `tarinfo_from_libarchive_entry` (`p7z2tar.py`, lines 11-25). -/
def tarinfo_from_libarchive_entry (entry : Entry) : TarInfo :=
  let ti := TarInfo.mkDefault entry.name  -- ti = tarfile.TarInfo(str(entry))
  let ti := { ti with size := entry.size }  -- ti.size = entry.size
  let ti := if pyTruthyNum entry.mtime  -- if entry.mtime: ti.mtime = ...
    then { ti with mtime := entry.mtime.getD 0 } else ti
  let ti := if pyTruthyNum entry.mode  -- if entry.mode: ti.mode = ...
    then { ti with mode := entry.mode.getD 0 } else ti
  ti

/-- Python `f.rstrip('\x0a')` on one line of the filter file (lines 138 and
141): drop trailing newline characters. -/
def rstripNl (x : String) : String :=
  String.mk ((x.data.reverse.dropWhile (fun c => c = '\n')).reverse)

/-- Building the filter set from the lines of the filter file
(lines 137-143): trailing newlines stripped, duplicates collapsed by `set`.
The set is modelled as a deduplicated list of names. -/
def buildFilterSet (lines : List String) : List String :=
  (lines.map rstripNl).dedup

/-- Python truthiness of the optional filter set: `None` and the empty set
are both falsy (`if files_from_list:` at lines 145 and 161). -/
def pyTruthySet (v : Option (List String)) : Bool :=
  match v with
  | none => false
  | some l => !l.isEmpty

/-- The `total` computation (lines 145-153): the filter set's size when
progress is requested and the set is truthy; otherwise, when progress is
requested, a metadata pre-pass counting the entries of every archive;
otherwise `0`. -/
def computeTotal (show_progress : Bool) (files_from_list : Option (List String))
    (archives : List (List Entry)) : Nat :=
  if show_progress && pyTruthySet files_from_list then
    (files_from_list.getD []).length
  else if show_progress then
    (archives.map List.length).sum
  else 0

/-- One `tar.addfile(ti, ArchiveEntryBlocks(iter(entry.get_blocks())))` call
(lines 168-170 and 176-178): the mapped header and the entry's block
reader. -/
def addedFile (entry : Entry) : TarInfo × ArchiveEntryBlocks :=
  (tarinfo_from_libarchive_entry entry, ArchiveEntryBlocks.init entry.blocks)

/-- The streaming loops of `extract_to_stdout` (lines 161-179): the sequence
of `tar.addfile` calls made, together with the final progress counter (one
`prog.update()` per source entry, also for rejected ones). -/
def streamEntries (files_from_list : Option (List String))
    (archives : List (List Entry)) :
    List (TarInfo × ArchiveEntryBlocks) × Nat :=
  if pyTruthySet files_from_list then
    let filt := files_from_list.getD []
    archives.foldl (fun acc z =>
      z.foldl (fun acc entry =>
        if !filt.contains entry.name then (acc.1, acc.2 + 1)  -- lines 165-167
        else (acc.1 ++ [addedFile entry], acc.2 + 1)) acc)  -- lines 168-171
      ([], 0)
  else
    archives.foldl (fun acc z =>
      z.foldl (fun acc entry => (acc.1 ++ [addedFile entry], acc.2 + 1)) acc)
      ([], 0)

/-- Model of `extract_to_stdout` (lines 131-179), on the already-read lines
of the filter file (`files_from = some lines` when `-T` was given, `none`
otherwise).  Returns the written entries with the final progress counter,
and the progress total. -/
def extract_to_stdout (archives : List (List Entry))
    (files_from : Option (List String)) (show_progress : Bool) :
    (List (TarInfo × ArchiveEntryBlocks) × Nat) × Nat :=
  let files_from_list := files_from.map buildFilterSet
  let total := computeTotal show_progress files_from_list archives
  (streamEntries files_from_list archives, total)

/-! ### Basic facts about the Python slice model -/

theorem pyBound_neg {n p : Nat} (hp : 1 ≤ p) : pyBound n (-(p : Int)) = n - p := by
  unfold pyBound
  rw [if_pos (by omega : -(p : Int) < 0)]
  simp

theorem pyBound_natCast (n p : Nat) : pyBound n (p : Int) = min p n := by
  unfold pyBound
  rw [if_neg (by omega : ¬ (p : Int) < 0)]
  simp

/-- Slicing `b[-len(b):]` gives the whole string, also when `b` is empty. -/
theorem pySliceFrom_neg_length {α : Type} (b : List α) :
    pySliceFrom b (-(b.length : Int)) = b := by
  rcases Nat.eq_zero_or_pos b.length with h | h
  · simp [pySliceFrom, pyBound, h, List.eq_nil_of_length_eq_zero h]
  · rw [pySliceFrom, pyBound_neg h, Nat.sub_self, List.drop_zero]

/-- Slicing `b[-p:]` keeps the last `p` elements when `1 ≤ p`. -/
theorem pySliceFrom_neg {α : Type} (b : List α) {p : Nat} (hp : 1 ≤ p) :
    pySliceFrom b (-(p : Int)) = b.drop (b.length - p) := by
  rw [pySliceFrom, pyBound_neg hp]

/-- Slicing `b[-p:-c]` with `1 ≤ c ≤ p ≤ len b` takes the last `p` elements
and removes the last `c` of them. -/
theorem pySlice_neg_neg {α : Type} (b : List α) {p c : Nat} (hp : 1 ≤ p)
    (hc : 1 ≤ c) (hcp : c ≤ p) (hpb : p ≤ b.length) :
    pySlice b (-(p : Int)) (-(c : Int)) = (b.drop (b.length - p)).take (p - c) := by
  rw [pySlice, pyBound_neg hp, pyBound_neg hc, List.drop_take]
  congr 1
  omega

/-! ### Branch equations for the read loop -/

theorem readLoop_stop {size retrieved : Nat} (s : ArchiveEntryBlocks)
    (h : ¬ retrieved < size) :
    ArchiveEntryBlocks.readLoop size retrieved s = ([], s) := by
  rw [ArchiveEntryBlocks.readLoop, if_neg h]

theorem readLoop_exhausted {size retrieved : Nat} (cb : Option ByteStr)
    (h : retrieved < size) :
    ArchiveEntryBlocks.readLoop size retrieved ⟨[], cb, none⟩
      = ([], ⟨[], cb, none⟩) := by
  rw [ArchiveEntryBlocks.readLoop, if_pos h]

theorem readLoop_pull_full {size retrieved : Nat} (cb : Option ByteStr)
    (b : ByteStr) (rest : List ByteStr) (h : retrieved < size)
    (hle : retrieved + b.length ≤ size) :
    ArchiveEntryBlocks.readLoop size retrieved ⟨b :: rest, cb, none⟩
      = (pySliceFrom b (-(b.length : Int))
            :: (ArchiveEntryBlocks.readLoop size (retrieved + b.length)
                  ⟨rest, some b, none⟩).1,
         (ArchiveEntryBlocks.readLoop size (retrieved + b.length)
            ⟨rest, some b, none⟩).2) := by
  rw [ArchiveEntryBlocks.readLoop, if_pos h]
  simp [hle]

theorem readLoop_pull_part {size retrieved : Nat} (cb : Option ByteStr)
    (b : ByteStr) (rest : List ByteStr) (h : retrieved < size)
    (hgt : ¬ retrieved + b.length ≤ size) :
    ArchiveEntryBlocks.readLoop size retrieved ⟨b :: rest, cb, none⟩
      = (pySlice b (-(b.length : Int)) (-(((retrieved + b.length - size : Nat)) : Int))
            :: (ArchiveEntryBlocks.readLoop size
                  (retrieved + (b.length - (retrieved + b.length - size)))
                  ⟨rest, some b, some (retrieved + b.length - size)⟩).1,
         (ArchiveEntryBlocks.readLoop size
            (retrieved + (b.length - (retrieved + b.length - size)))
            ⟨rest, some b, some (retrieved + b.length - size)⟩).2) := by
  rw [ArchiveEntryBlocks.readLoop, if_pos h]
  simp [hgt]

theorem readLoop_cursor_full {size retrieved : Nat} (bl : List ByteStr)
    (cb : Option ByteStr) (k : Nat) (h : retrieved < size)
    (hle : retrieved + k ≤ size) :
    ArchiveEntryBlocks.readLoop size retrieved ⟨bl, cb, some k⟩
      = (pySliceFrom (cb.getD []) (-(k : Int))
            :: (ArchiveEntryBlocks.readLoop size (retrieved + k)
                  ⟨bl, cb, none⟩).1,
         (ArchiveEntryBlocks.readLoop size (retrieved + k) ⟨bl, cb, none⟩).2) := by
  rw [ArchiveEntryBlocks.readLoop, if_pos h]
  simp [hle]

theorem readLoop_cursor_part {size retrieved : Nat} (bl : List ByteStr)
    (cb : Option ByteStr) (k : Nat) (h : retrieved < size)
    (hgt : ¬ retrieved + k ≤ size) :
    ArchiveEntryBlocks.readLoop size retrieved ⟨bl, cb, some k⟩
      = (pySlice (cb.getD []) (-(k : Int)) (-(((retrieved + k - size : Nat)) : Int))
            :: (ArchiveEntryBlocks.readLoop size
                  (retrieved + (k - (retrieved + k - size)))
                  ⟨bl, cb, some (retrieved + k - size)⟩).1,
         (ArchiveEntryBlocks.readLoop size
            (retrieved + (k - (retrieved + k - size)))
            ⟨bl, cb, some (retrieved + k - size)⟩).2) := by
  rw [ArchiveEntryBlocks.readLoop, if_pos h]
  simp [hgt]

/-! ### The loop specification of the chunk-bounded reader -/

/-- Specification of the `read` loop: from a state satisfying the cursor
invariant with `retrieved ≤ size`, the loop returns exactly the next
`size - retrieved` unreturned bytes (fewer if the source is exhausted), the
new state's unreturned bytes are exactly the rest, and the invariant is
preserved. -/
theorem readLoop_spec (size : Nat) (retrieved : Nat) (s : ArchiveEntryBlocks) :
    CursorInv s → retrieved ≤ size →
      (ArchiveEntryBlocks.readLoop size retrieved s).1.flatten
          = (remaining s).take (size - retrieved)
        ∧ remaining (ArchiveEntryBlocks.readLoop size retrieved s).2
          = (remaining s).drop (size - retrieved)
        ∧ CursorInv (ArchiveEntryBlocks.readLoop size retrieved s).2 := by
  induction retrieved, s using ArchiveEntryBlocks.readLoop.induct size with
  | case1 retrieved s hlt hcur hblk =>
    intro hInv hret
    obtain ⟨bl, cb, cur⟩ := s
    dsimp only at hcur hblk
    subst hcur hblk
    rw [readLoop_exhausted cb hlt]
    simp [remaining, cursorTail, hInv]
  | case2 retrieved s hlt hcur b rest hblk s₁ prev_cursor hle ih =>
    intro hInv hret
    obtain ⟨bl, cb, cur⟩ := s
    dsimp only at hcur hblk hle ih ⊢
    subst hcur hblk
    rw [readLoop_pull_full cb b rest hlt hle]
    have hInv' : CursorInv ⟨rest, some b, none⟩ := by
      intro k hk
      simp at hk
    obtain ⟨ih1, ih2, ih3⟩ := ih hInv' (by omega)
    have hrem' : remaining ⟨rest, some b, none⟩ = rest.flatten := by
      simp [remaining, cursorTail]
    have hrem : remaining ⟨b :: rest, cb, none⟩ = b ++ rest.flatten := by
      simp [remaining, cursorTail]
    refine ⟨?_, ?_, ih3⟩
    · rw [List.flatten_cons, ih1, hrem, hrem', pySliceFrom_neg_length,
        List.take_append_eq_append_take,
        List.take_of_length_le (by omega : b.length ≤ size - retrieved)]
      congr 2
      omega
    · rw [ih2, hrem, hrem', List.drop_append_eq_append_drop,
        List.drop_eq_nil_of_le (by omega : b.length ≤ size - retrieved),
        List.nil_append]
      congr 1
      omega
  | case3 retrieved s hlt hcur b rest hblk s₁ prev_cursor hgt c ih =>
    intro hInv hret
    obtain ⟨bl, cb, cur⟩ := s
    dsimp only at hcur hblk hgt ⊢
    subst hcur hblk
    have hpc : prev_cursor = b.length := rfl
    have hcc : c = retrieved + b.length - size := rfl
    rw [hpc] at hgt
    rw [hpc, hcc] at ih
    have hb1 : 1 ≤ b.length := by omega
    have hc1 : 1 ≤ retrieved + b.length - size := by omega
    have heq : retrieved + (b.length - (retrieved + b.length - size)) = size := by
      omega
    rw [readLoop_pull_part cb b rest hlt hgt, heq]
    have hInv' : CursorInv ⟨rest, some b, some (retrieved + b.length - size)⟩ := by
      intro k hk
      simp only [Option.some.injEq] at hk
      subst hk
      simp only [Option.getD_some]
      omega
    obtain ⟨ih1, ih2, ih3⟩ := ih hInv' (by omega)
    rw [heq] at ih1 ih2 ih3
    rw [Nat.sub_self, List.take_zero] at ih1
    rw [Nat.sub_self, List.drop_zero] at ih2
    have hrem : remaining ⟨b :: rest, cb, none⟩ = b ++ rest.flatten := by
      simp [remaining, cursorTail]
    have hrem' : remaining ⟨rest, some b, some (retrieved + b.length - size)⟩
        = b.drop (b.length - (retrieved + b.length - size)) ++ rest.flatten := by
      simp [remaining, cursorTail]
    have hz : size - retrieved - b.length = 0 := by omega
    refine ⟨?_, ?_, ih3⟩
    · rw [List.flatten_cons, ih1, List.append_nil, hrem,
        pySlice_neg_neg b hb1 hc1 (by omega) le_rfl, Nat.sub_self,
        List.drop_zero, List.take_append_eq_append_take, hz, List.take_zero,
        List.append_nil]
      have harg : b.length - (retrieved + b.length - size) = size - retrieved := by
        omega
      rw [harg]
    · rw [ih2, hrem', hrem, List.drop_append_eq_append_drop, hz, List.drop_zero]
      have harg : b.length - (retrieved + b.length - size) = size - retrieved := by
        omega
      rw [harg]
  | case4 retrieved s hlt k hcur prev_cursor hle ih =>
    intro hInv hret
    obtain ⟨bl, cb, cur⟩ := s
    dsimp only at hcur hle ih ⊢
    subst hcur
    obtain ⟨hk1, hk2⟩ := hInv k rfl
    dsimp only at hk2
    have hpc : prev_cursor = k := rfl
    rw [hpc] at hle ih
    rw [readLoop_cursor_full bl cb k hlt hle]
    have hInv' : CursorInv ⟨bl, cb, none⟩ := by
      intro k' hk'
      simp at hk'
    obtain ⟨ih1, ih2, ih3⟩ := ih hInv' (by omega)
    have hrem' : remaining ⟨bl, cb, none⟩ = bl.flatten := by
      simp [remaining, cursorTail]
    have hrem : remaining ⟨bl, cb, some k⟩
        = (cb.getD []).drop ((cb.getD []).length - k) ++ bl.flatten := by
      simp [remaining, cursorTail]
    have hlen : ((cb.getD []).drop ((cb.getD []).length - k)).length = k := by
      rw [List.length_drop]
      omega
    have harg : size - retrieved - k = size - (retrieved + k) := by omega
    refine ⟨?_, ?_, ih3⟩
    · rw [List.flatten_cons, ih1, hrem, hrem', pySliceFrom_neg _ hk1,
        List.take_append_eq_append_take, hlen, harg,
        @List.take_of_length_le _ (size - retrieved)
          ((cb.getD []).drop ((cb.getD []).length - k)) (by rw [hlen]; omega)]
    · rw [ih2, hrem, hrem', List.drop_append_eq_append_drop, hlen, harg,
        @List.drop_eq_nil_of_le _ ((cb.getD []).drop ((cb.getD []).length - k))
          (size - retrieved) (by rw [hlen]; omega), List.nil_append]
  | case5 retrieved s hlt k hcur prev_cursor hgt c ih =>
    intro hInv hret
    obtain ⟨bl, cb, cur⟩ := s
    dsimp only at hcur hgt ⊢
    subst hcur
    obtain ⟨hk1, hk2⟩ := hInv k rfl
    dsimp only at hk2
    have hpc : prev_cursor = k := rfl
    have hcc : c = retrieved + k - size := rfl
    rw [hpc] at hgt
    rw [hpc, hcc] at ih
    have hc1 : 1 ≤ retrieved + k - size := by omega
    have heq : retrieved + (k - (retrieved + k - size)) = size := by omega
    rw [readLoop_cursor_part bl cb k hlt hgt, heq]
    have hInv' : CursorInv ⟨bl, cb, some (retrieved + k - size)⟩ := by
      intro k' hk'
      simp only [Option.some.injEq] at hk'
      subst hk'
      dsimp only
      omega
    obtain ⟨ih1, ih2, ih3⟩ := ih hInv' (by omega)
    rw [heq] at ih1 ih2 ih3
    rw [Nat.sub_self, List.take_zero] at ih1
    rw [Nat.sub_self, List.drop_zero] at ih2
    have hrem : remaining ⟨bl, cb, some k⟩
        = (cb.getD []).drop ((cb.getD []).length - k) ++ bl.flatten := by
      simp [remaining, cursorTail]
    have hrem' : remaining ⟨bl, cb, some (retrieved + k - size)⟩
        = (cb.getD []).drop ((cb.getD []).length - (retrieved + k - size))
            ++ bl.flatten := by
      simp [remaining, cursorTail]
    have hlen : ((cb.getD []).drop ((cb.getD []).length - k)).length = k := by
      rw [List.length_drop]
      omega
    have hz : size - retrieved - k = 0 := by omega
    refine ⟨?_, ?_, ih3⟩
    · rw [List.flatten_cons, ih1, List.append_nil, hrem,
        pySlice_neg_neg _ hk1 hc1 (by omega) hk2,
        List.take_append_eq_append_take, hlen, hz, List.take_zero,
        List.append_nil]
      have harg2 : k - (retrieved + k - size) = size - retrieved := by omega
      rw [harg2]
    · rw [ih2, hrem', hrem, List.drop_append_eq_append_drop, hlen, hz,
        List.drop_zero, List.drop_drop]
      have harg : (cb.getD []).length - k + (size - retrieved)
          = (cb.getD []).length - (retrieved + k - size) := by
        omega
      rw [harg]
  | case6 retrieved s hlt =>
    intro hInv hret
    rw [readLoop_stop s hlt]
    have hz : size - retrieved = 0 := by omega
    simp [hz, hInv]

/-! ### Per-call specifications of `read` -/

/-- Calling `read(None)` is handled exactly like `read(-1)` (lines 43-44). -/
theorem read_none_eq_read_neg_one (s : ArchiveEntryBlocks) :
    ArchiveEntryBlocks.read none s = ArchiveEntryBlocks.read (some (-1)) s := rfl

/-- Calling `read(v)` with `v < 0` drains the block iterator — but returns only the
not-yet-pulled blocks, leaving `curr_block` and `cursor` untouched
(lines 45-46 and 74-75). -/
theorem read_neg_eq (v : Int) (s : ArchiveEntryBlocks) (hv : v < 0) :
    ArchiveEntryBlocks.read (some v) s
      = (s.blocks.flatten, { s with blocks := [] }) := by
  simp only [ArchiveEntryBlocks.read, ArchiveEntryBlocks._read_all]
  rw [if_pos hv]

/-- Calling `read(0)` returns empty and leaves the state unchanged
(lines 47-48). -/
theorem read_zero_eq (s : ArchiveEntryBlocks) :
    ArchiveEntryBlocks.read (some 0) s = ([], s) := rfl

/-- A positive `read(n)` returns exactly the next `n` unreturned bytes (or
all of them if fewer are left), leaves exactly the rest unreturned, and
preserves the cursor invariant. -/
theorem read_pos_spec (n : Int) (s : ArchiveEntryBlocks) (hn : 0 < n)
    (hInv : CursorInv s) :
    (ArchiveEntryBlocks.read (some n) s).1 = (remaining s).take n.toNat
      ∧ remaining (ArchiveEntryBlocks.read (some n) s).2
          = (remaining s).drop n.toNat
      ∧ CursorInv (ArchiveEntryBlocks.read (some n) s).2 := by
  obtain ⟨h1, h2, h3⟩ := readLoop_spec n.toNat 0 s hInv (Nat.zero_le _)
  rw [Nat.sub_zero] at h1 h2
  simp only [ArchiveEntryBlocks.read]
  rw [if_neg (by omega : ¬ n < 0), if_neg (by omega : ¬ n = 0)]
  exact ⟨h1, h2, h3⟩

/-- Every `read` call preserves the cursor invariant. -/
theorem read_preserves_CursorInv (sz : Option Int) (s : ArchiveEntryBlocks)
    (hInv : CursorInv s) :
    CursorInv (ArchiveEntryBlocks.read sz s).2 := by
  match sz with
  | none =>
    rw [read_none_eq_read_neg_one, read_neg_eq (-1) s (by omega)]
    intro k hk
    exact hInv k hk
  | some v =>
    rcases lt_trichotomy v 0 with hv | hv | hv
    · rw [read_neg_eq v s hv]
      intro k hk
      exact hInv k hk
    · subst hv
      rw [read_zero_eq]
      exact hInv
    · exact (read_pos_spec v s hv hInv).2.2

/-- Every state reachable from a fresh reader satisfies the cursor
invariant. -/
theorem reachable_CursorInv (s : ArchiveEntryBlocks) (h : Reachable s) :
    CursorInv s := by
  induction h with
  | init chunks =>
    intro k hk
    simp [ArchiveEntryBlocks.init] at hk
  | step sz h ih => exact read_preserves_CursorInv sz _ ih

/-- Once nothing unreturned is left, every `read` call returns empty and
again leaves nothing unreturned. -/
theorem read_of_remaining_nil (sz : Option Int) (s : ArchiveEntryBlocks)
    (hInv : CursorInv s) (h : remaining s = []) :
    (ArchiveEntryBlocks.read sz s).1 = []
      ∧ remaining (ArchiveEntryBlocks.read sz s).2 = []
      ∧ CursorInv (ArchiveEntryBlocks.read sz s).2 := by
  obtain ⟨ht, hf⟩ := List.append_eq_nil.mp h
  match sz with
  | none =>
    rw [read_none_eq_read_neg_one, read_neg_eq (-1) s (by omega)]
    refine ⟨hf, ?_, fun k hk => hInv k hk⟩
    simp only [remaining, cursorTail] at ht ⊢
    simp [ht]
  | some v =>
    rcases lt_trichotomy v 0 with hv | hv | hv
    · rw [read_neg_eq v s hv]
      refine ⟨hf, ?_, fun k hk => hInv k hk⟩
      simp only [remaining, cursorTail] at ht ⊢
      simp [ht]
    · subst hv
      rw [read_zero_eq]
      exact ⟨rfl, h, hInv⟩
    · obtain ⟨h1, h2, h3⟩ := read_pos_spec v s hv hInv
      rw [h] at h1 h2
      simp only [List.take_nil] at h1
      simp only [List.drop_nil] at h2
      exact ⟨h1, h2, h3⟩

/-- Once nothing unreturned is left, any sequence of further `read` calls
returns one empty byte string per call. -/
theorem runReads_of_remaining_nil (sizes : List (Option Int))
    (s : ArchiveEntryBlocks) (hInv : CursorInv s) (h : remaining s = []) :
    (runReads sizes s).1 = sizes.map (fun _ => ([] : ByteStr)) := by
  induction sizes generalizing s with
  | nil => rfl
  | cons sz rest ih =>
    obtain ⟨h1, h2, h3⟩ := read_of_remaining_nil sz s hInv h
    simp only [runReads, List.map_cons]
    rw [h1, ih _ h3 h2]

/-- A fresh reader has exactly the concatenation of its chunks
unreturned. -/
theorem remaining_init (chunks : List ByteStr) :
    remaining (ArchiveEntryBlocks.init chunks) = chunks.flatten := by
  simp [remaining, cursorTail, ArchiveEntryBlocks.init]

/-- A fresh reader satisfies the cursor invariant. -/
theorem cursorInv_init (chunks : List ByteStr) :
    CursorInv (ArchiveEntryBlocks.init chunks) := by
  intro k hk
  simp [ArchiveEntryBlocks.init] at hk

/-- Running `runReads` on appended size lists splits into two runs. -/
theorem runReads_append (xs ys : List (Option Int)) (s : ArchiveEntryBlocks) :
    runReads (xs ++ ys) s
      = ((runReads xs s).1 ++ (runReads ys (runReads xs s).2).1,
         (runReads ys (runReads xs s).2).2) := by
  induction xs generalizing s with
  | nil => simp [runReads]
  | cons x rest ih => simp [runReads, ih]

/-- Any sequence of positive reads returns, in concatenation, exactly the
next `sum` unreturned bytes, where `sum` is the total requested size. -/
theorem runReads_pos_spec (sizes : List Int) (s : ArchiveEntryBlocks)
    (hInv : CursorInv s) (hpos : ∀ n ∈ sizes, 0 < n) :
    ((runReads (sizes.map some) s).1.flatten
        = (remaining s).take ((sizes.map Int.toNat).sum))
      ∧ remaining (runReads (sizes.map some) s).2
          = (remaining s).drop ((sizes.map Int.toNat).sum)
      ∧ CursorInv (runReads (sizes.map some) s).2 := by
  induction sizes generalizing s with
  | nil => simpa [runReads] using hInv
  | cons n rest ih =>
    obtain ⟨h1, h2, h3⟩ := read_pos_spec n s (hpos n (by simp)) hInv
    obtain ⟨g1, g2, g3⟩ := ih (ArchiveEntryBlocks.read (some n) s).2 h3
      (fun m hm => hpos m (by simp [hm]))
    simp only [List.map_cons, runReads, List.flatten_cons, List.sum_cons]
    refine ⟨?_, ?_, g3⟩
    · rw [h1, g1, h2, ← List.take_add]
    · rw [g2, h2, List.drop_drop]

/-- For positive integers, summing after `Int.toNat` agrees with the
integer sum. -/
theorem sum_map_toNat_of_pos (sizes : List Int) (hpos : ∀ n ∈ sizes, 0 < n) :
    ((sizes.map Int.toNat).sum : Int) = sizes.sum := by
  induction sizes with
  | nil => simp
  | cons n rest ih =>
    simp only [List.map_cons, List.sum_cons, Nat.cast_add]
    rw [ih (fun m hm => hpos m (by simp [hm])),
      Int.toNat_of_nonneg (le_of_lt (hpos n (by simp)))]

/-! ### The claims -/

/-- C1. For every finite sequence of byte chunks and every sequence of
positive sizes passed to successive `read` calls on a fresh chunk-bounded
reader, the concatenation of the returned byte strings equals the
concatenation of all chunks truncated to the minimum of the total requested
size and the total content length; in particular, positive reads continued
until exhaustion reproduce exactly the `read(-1)` result of a fresh reader
over the same chunks. -/
theorem reader_pos_reads_concat (chunks : List ByteStr) (sizes : List Int)
    (hpos : ∀ n ∈ sizes, 0 < n) :
    (runReads (sizes.map some) (ArchiveEntryBlocks.init chunks)).1.flatten
        = chunks.flatten.take
            (min ((sizes.map Int.toNat).sum) chunks.flatten.length)
      ∧ ((chunks.flatten.length : Int) ≤ sizes.sum →
          (runReads (sizes.map some) (ArchiveEntryBlocks.init chunks)).1.flatten
            = (ArchiveEntryBlocks.read (some (-1))
                (ArchiveEntryBlocks.init chunks)).1) := by
  obtain ⟨h1, h2, h3⟩ := runReads_pos_spec sizes _ (cursorInv_init chunks) hpos
  rw [remaining_init] at h1 h2
  have hsum : ((sizes.map Int.toNat).sum : Int) = sizes.sum :=
    sum_map_toNat_of_pos sizes hpos
  constructor
  · rw [h1]
    rcases le_total ((sizes.map Int.toNat).sum) chunks.flatten.length with h | h
    · rw [min_eq_left h]
    · rw [min_eq_right h, List.take_length, List.take_of_length_le h]
  · intro hex
    rw [read_neg_eq (-1) _ (by omega), h1]
    have hlen : chunks.flatten.length ≤ (sizes.map Int.toNat).sum := by omega
    rw [List.take_of_length_le hlen]
    simp [ArchiveEntryBlocks.init]

/-- Witness for `reader_pos_reads_concat`: chunks `[b'\x01', b'\x02\x03']`,
read sizes `2, 5`. -/
theorem reader_pos_reads_concat_witness :
    (runReads ([(2 : Int), 5].map some)
        (ArchiveEntryBlocks.init [[1], [2, 3]])).1.flatten
        = ([[1], [2, 3]] : List ByteStr).flatten.take
            (min (([(2 : Int), 5].map Int.toNat).sum)
              ([[1], [2, 3]] : List ByteStr).flatten.length)
      ∧ (runReads ([(2 : Int), 5].map some)
          (ArchiveEntryBlocks.init [[1], [2, 3]])).1.flatten
          = (ArchiveEntryBlocks.read (some (-1))
              (ArchiveEntryBlocks.init [[1], [2, 3]])).1 := by
  have h := reader_pos_reads_concat [[1], [2, 3]] [2, 5]
    (by intro n hn; simp at hn; rcases hn with rfl | rfl <;> norm_num)
  exact ⟨h.1, h.2 (by decide)⟩

/-- C2 (refuted by the code): `read(-1)` is claimed to return the
unconsumed tail of the held chunk followed by the not-yet-pulled chunks.  On
chunks `[b'ab']`, after `read(1)` the reader holds the tail `b'b'`
(`cursor = 1`, one unreturned byte), yet `read(-1)` returns `b''` — the held
tail is dropped because `_read_all` joins only `self.blocks`. -/
theorem read_all_drops_held_tail :
    (ArchiveEntryBlocks.read (some 1) (ArchiveEntryBlocks.init [[97, 98]])).2
        = ⟨[], some [97, 98], some 1⟩
      ∧ remaining
          (ArchiveEntryBlocks.read (some 1)
            (ArchiveEntryBlocks.init [[97, 98]])).2 = [98]
      ∧ (ArchiveEntryBlocks.read (some (-1))
          (ArchiveEntryBlocks.read (some 1)
            (ArchiveEntryBlocks.init [[97, 98]])).2).1 = [] := by
  refine ⟨?_, ?_, ?_⟩ <;>
    simp [ArchiveEntryBlocks.read, ArchiveEntryBlocks.readLoop,
      ArchiveEntryBlocks._read_all, ArchiveEntryBlocks.init, remaining,
      cursorTail, pySlice, pySliceFrom, pyBound]

/-- C3 (refuted by the code): after `read(-1)`, subsequent reads are
claimed to return empty.  On chunks `[b'ab']`: `read(1)` returns `b'a'`,
`read(-1)` returns `b''`, and the next `read(1)` returns `b'b'` — not empty,
because the negative read left `cursor`/`curr_block` in place. -/
theorem read_after_read_all_nonempty :
    (runReads [some 1, some (-1), some 1]
        (ArchiveEntryBlocks.init [[97, 98]])).1 = [[97], [], [98]] := by
  simp [runReads, ArchiveEntryBlocks.read, ArchiveEntryBlocks.readLoop,
    ArchiveEntryBlocks._read_all, ArchiveEntryBlocks.init, pySlice,
    pySliceFrom, pyBound]

/-- C6. A positive read that exhausts the chunk sequence before
accumulating the requested size returns the shorter accumulated result (all
bytes that were left), and afterwards every subsequent `read` call — of any
requested size — returns the empty byte string. -/
theorem short_read_then_all_empty (s : ArchiveEntryBlocks) (n : Int)
    (sizes : List (Option Int)) (hn : 0 < n) (hInv : CursorInv s)
    (hshort : ((ArchiveEntryBlocks.read (some n) s).1.length : Int) < n) :
    (ArchiveEntryBlocks.read (some n) s).1 = remaining s
      ∧ (runReads sizes (ArchiveEntryBlocks.read (some n) s).2).1
          = sizes.map (fun _ => ([] : ByteStr)) := by
  obtain ⟨h1, h2, h3⟩ := read_pos_spec n s hn hInv
  rw [h1] at hshort ⊢
  rw [List.length_take] at hshort
  have hlen : (remaining s).length ≤ n.toNat := by omega
  refine ⟨List.take_of_length_le hlen, ?_⟩
  have hrem : remaining (ArchiveEntryBlocks.read (some n) s).2 = [] := by
    rw [h2, List.drop_eq_nil_of_le hlen]
  exact runReads_of_remaining_nil sizes _ h3 hrem

/-- Witness for `short_read_then_all_empty`: chunks `[b'\x61']`, `read(2)`
is short, then reads of sizes `-1`, `0`, `3` and `None` all return empty. -/
theorem short_read_then_all_empty_witness :
    (ArchiveEntryBlocks.read (some 2) (ArchiveEntryBlocks.init [[97]])).1
        = remaining (ArchiveEntryBlocks.init [[97]])
      ∧ (runReads [some (-1), some 0, some 3, none]
          (ArchiveEntryBlocks.read (some 2)
            (ArchiveEntryBlocks.init [[97]])).2).1
          = [some (-1), some 0, some 3, none].map (fun _ => ([] : ByteStr)) :=
  short_read_then_all_empty (ArchiveEntryBlocks.init [[97]]) 2
    [some (-1), some 0, some 3, none] (by norm_num)
    (cursorInv_init [[97]])
    (by simp [ArchiveEntryBlocks.read, ArchiveEntryBlocks.readLoop,
      ArchiveEntryBlocks.init, pySlice, pySliceFrom, pyBound])

/-- C7. `read(0)` returns the empty byte string and leaves the reader
state completely unchanged; consequently inserting a zero-sized read
anywhere in a sequence of reads only inserts an empty result, changing
neither the other results nor the final state. -/
theorem read_zero_frame (s : ArchiveEntryBlocks) (pre post : List (Option Int)) :
    ArchiveEntryBlocks.read (some 0) s = ([], s)
      ∧ (runReads (pre ++ some 0 :: post) s).1
          = (runReads pre s).1
              ++ ([] : ByteStr) :: (runReads post (runReads pre s).2).1
      ∧ (runReads (pre ++ some 0 :: post) s).2 = (runReads (pre ++ post) s).2
      ∧ (runReads (pre ++ post) s).1
          = (runReads pre s).1 ++ (runReads post (runReads pre s).2).1 := by
  refine ⟨rfl, ?_, ?_, ?_⟩
  · rw [runReads_append]
    simp [runReads, read_zero_eq]
  · rw [runReads_append, runReads_append]
    simp [runReads, read_zero_eq]
  · rw [runReads_append]

/-- C8. Every reachable reader state satisfies the cursor bound — the
cursor is either empty or holds an offset within `[0, length(held_chunk)]` —
and the bound is preserved by any further `read` call, so every slice taken
from the held chunk is within bounds. -/
theorem reachable_cursor_in_bounds (s : ArchiveEntryBlocks) (sz : Option Int)
    (h : Reachable s) :
    cursorInBounds s = true
      ∧ cursorInBounds (ArchiveEntryBlocks.read sz s).2 = true := by
  have key : ∀ t, CursorInv t → cursorInBounds t = true := by
    intro t ht
    unfold cursorInBounds
    cases hc : t.cursor with
    | none => rfl
    | some k => simpa using (ht k hc).2
  have h1 := reachable_CursorInv s h
  exact ⟨key s h1, key _ (read_preserves_CursorInv sz s h1)⟩

/-- Witness for `reachable_cursor_in_bounds`: the state after `read(1)` on
chunks `[b'\x01\x02']` (which holds a partially-consumed chunk), followed by
`read(5)`. -/
theorem reachable_cursor_in_bounds_witness :
    cursorInBounds (ArchiveEntryBlocks.read (some 1)
        (ArchiveEntryBlocks.init [[1, 2]])).2 = true
      ∧ cursorInBounds (ArchiveEntryBlocks.read (some 5)
          (ArchiveEntryBlocks.read (some 1)
            (ArchiveEntryBlocks.init [[1, 2]])).2).2 = true :=
  reachable_cursor_in_bounds _ (some 5)
    (Reachable.step (some 1) (Reachable.init [[1, 2]]))

/-- C10. `read(None)` is accepted and behaves exactly like `read(-1)`:
same returned bytes and same successor state, from any reader state. -/
theorem read_none_accepted_as_neg (s : ArchiveEntryBlocks) :
    ArchiveEntryBlocks.read none s = ArchiveEntryBlocks.read (some (-1)) s :=
  rfl

/-- C5. The entry metadata mapper is a pure function of the source
entry: the destination name and size are always set verbatim; modify-time is
assigned only when present and non-zero, permission bits only when non-zero;
otherwise the destination defaults are left unchanged. -/
theorem tarinfo_mapping_spec (e : Entry) :
    (tarinfo_from_libarchive_entry e).name = e.name
      ∧ (tarinfo_from_libarchive_entry e).size = e.size
      ∧ (∀ m, e.mtime = some m → m ≠ 0 →
          (tarinfo_from_libarchive_entry e).mtime = m)
      ∧ ((e.mtime = none ∨ e.mtime = some 0) →
          (tarinfo_from_libarchive_entry e).mtime
            = (TarInfo.mkDefault e.name).mtime)
      ∧ (∀ m, e.mode = some m → m ≠ 0 →
          (tarinfo_from_libarchive_entry e).mode = m)
      ∧ ((e.mode = none ∨ e.mode = some 0) →
          (tarinfo_from_libarchive_entry e).mode
            = (TarInfo.mkDefault e.name).mode) := by
  obtain ⟨nm, sz, mt, md, bl⟩ := e
  refine ⟨?_, ?_, ?_, ?_, ?_, ?_⟩
  · simp only [tarinfo_from_libarchive_entry]
    split_ifs <;> rfl
  · simp only [tarinfo_from_libarchive_entry]
    split_ifs <;> rfl
  · intro m hm hm0
    dsimp only at hm
    subst hm
    simp only [tarinfo_from_libarchive_entry, pyTruthyNum]
    split_ifs <;> simp_all
  · intro hmt
    dsimp only at hmt
    simp only [tarinfo_from_libarchive_entry, pyTruthyNum]
    rcases hmt with rfl | rfl <;> split_ifs <;> simp_all [TarInfo.mkDefault]
  · intro m hm hm0
    dsimp only at hm
    subst hm
    simp only [tarinfo_from_libarchive_entry, pyTruthyNum]
    split_ifs <;> simp_all
  · intro hmd
    dsimp only at hmd
    simp only [tarinfo_from_libarchive_entry, pyTruthyNum]
    rcases hmd with rfl | rfl <;> split_ifs <;> simp_all [TarInfo.mkDefault]

/-- Witness for `tarinfo_mapping_spec`: an entry with modify-time
`1700000000` (set exactly) and mode `0` (default `0o644` kept). -/
theorem tarinfo_mapping_spec_witness :
    (tarinfo_from_libarchive_entry
        ⟨"f", 9, some 1700000000, some 0, []⟩).mtime = 1700000000
      ∧ (tarinfo_from_libarchive_entry
          ⟨"f", 9, some 1700000000, some 0, []⟩).mode
          = (TarInfo.mkDefault "f").mode := by
  have h := tarinfo_mapping_spec ⟨"f", 9, some 1700000000, some 0, []⟩
  exact ⟨h.2.2.1 1700000000 rfl (by norm_num), h.2.2.2.2.2 (Or.inr rfl)⟩

/-- C4. With filter set `{"a","b"}` and one source archive containing
entries named `"a"`, `"b"`, `"c"` in that order, exactly the entries named
`"a"` and `"b"` are written to the output, in their original relative order,
and the progress counter is advanced once per source entry, reaching 3. -/
theorem filter_set_semantics (e1 e2 e3 : Entry) (h1 : e1.name = "a")
    (h2 : e2.name = "b") (h3 : e3.name = "c") :
    streamEntries (some ["a", "b"]) [[e1, e2, e3]]
      = ([addedFile e1, addedFile e2], 3) := by
  simp [streamEntries, pyTruthySet, h1, h2, h3]

/-- Witness for `filter_set_semantics`: concrete entries named `"a"`, `"b"`,
`"c"`. -/
theorem filter_set_semantics_witness :
    streamEntries (some ["a", "b"])
        [[⟨"a", 1, none, none, [[10]]⟩, ⟨"b", 2, some 5, some 420, [[20]]⟩,
          ⟨"c", 3, none, none, [[30]]⟩]]
      = ([addedFile ⟨"a", 1, none, none, [[10]]⟩,
          addedFile ⟨"b", 2, some 5, some 420, [[20]]⟩], 3) :=
  filter_set_semantics _ _ _ rfl rfl rfl

/-- C9. A supplied filter list yielding an empty set (e.g. an empty
filter file) behaves exactly as if no filter had been supplied — every entry
is admitted, with the same output, progress counter, and total — and with
progress requested the total is computed by the metadata pre-pass over the
archives, not taken as the empty set's size `0`. -/
theorem empty_filter_acts_as_no_filter (archives : List (List Entry))
    (show_progress : Bool) :
    extract_to_stdout archives (some []) show_progress
        = extract_to_stdout archives none show_progress
      ∧ (extract_to_stdout archives (some []) true).2
          = (archives.map List.length).sum := by
  constructor <;>
    simp [extract_to_stdout, buildFilterSet, computeTotal, pyTruthySet,
      streamEntries]

/-- Sanity check mirroring `test_archive_entry_blocks` (lines 78-95) on the
chunks `b'h', b'el', b'lo ', b'world'` (as byte values): the model
reproduces the program's own test vectors, including the final short read
and the empty read after exhaustion. -/
theorem test_archive_entry_blocks_model :
    (ArchiveEntryBlocks.read (some (-1))
        (ArchiveEntryBlocks.init [[104], [101, 108], [108, 111, 32],
          [119, 111, 114, 108, 100]])).1
        = [104, 101, 108, 108, 111, 32, 119, 111, 114, 108, 100]
      ∧ (runReads [some 1, some 2, some (-1)]
          (ArchiveEntryBlocks.init [[104], [101, 108], [108, 111, 32],
            [119, 111, 114, 108, 100]])).1
          = [[104], [101, 108], [108, 111, 32, 119, 111, 114, 108, 100]]
      ∧ (runReads [some 4, some 5, some 5, some 2]
          (ArchiveEntryBlocks.init [[104], [101, 108], [108, 111, 32],
            [119, 111, 114, 108, 100]])).1
          = [[104, 101, 108, 108], [111, 32, 119, 111, 114], [108, 100], []] := by
  refine ⟨?_, ?_, ?_⟩ <;>
    simp [runReads, ArchiveEntryBlocks.read, ArchiveEntryBlocks.readLoop,
      ArchiveEntryBlocks._read_all, ArchiveEntryBlocks.init, pySlice,
      pySliceFrom, pyBound]
